import Mathlib

/-!
Shallow embedding of the AST index core of the repository
(`src/ast/ast_index.rs`), together with the models of the data
structures it manipulates (declared in `crate::ast::treesitter::structs`
and `crate::files_in_workspace`, which are outside the provided sources
and are therefore modelled from the specification).

The embedding is purely functional: the Rust methods that take
`&mut self` are modelled as functions from the index state to a pair of
the new state and the `Result` value, and the external effects of
`add_or_update` (adapter resolution, file reading, parsing) are
modelled by an explicit outcome value supplied by the environment.
-/

/-- Modelled from the spec: a row/column position inside a file
(`tree_sitter::Point`, external to the sources). -/
structure Point where
  row : Nat
  column : Nat
deriving DecidableEq, Repr

/-- Modelled from the spec: a byte and row/column range inside a file
(`tree_sitter::Range`, external to the sources). -/
structure TSRange where
  start_byte : Nat
  end_byte : Nat
  start_point : Point
  end_point : Point
deriving DecidableEq, Repr

/-- Modelled from the spec: the `definition_info` of a declaration record,
`{file_path, byte_range, row/column start, row/column end}`.  The fields
used by `ast_index.rs` are the file path and the range. -/
structure DefinitionInfo where
  path : String
  range : TSRange
deriving DecidableEq, Repr

/-- Modelled from the spec: a declaration record
(`SymbolDeclarationStruct`, declared outside the provided sources).
The fields used by `ast_index.rs` are `meta_path` (the hierarchical
symbol path), `name` (the leaf name) and `definition_info`. -/
structure SymbolDeclarationStruct where
  meta_path : String
  name : String
  definition_info : DefinitionInfo
deriving DecidableEq, Repr

/-- Modelled from the spec: a usage record (`UsageSymbolInfo`, a trait
object declared outside the provided sources).  The trait methods used by
`ast_index.rs` are `meta_path()`, `get_range()`,
`get_declaration_meta_path()` and `set_definition_meta_path(..)`; they
are modelled as fields. -/
structure UsageSymbolInfo where
  meta_path : String
  range : TSRange
  declaration_meta_path : Option String
deriving DecidableEq, Repr

/-- Modelled from the spec: one entry of a search response,
`{declaration_record, content, similarity_score}`
(`SymbolsSearchResultStruct`, declared outside the provided sources).
The `f32` similarity score is modelled as a rational number. -/
structure SymbolsSearchResultStruct where
  symbol_declaration : SymbolDeclarationStruct
  content : String
  sim_to_query : ℚ
deriving DecidableEq, Repr

/-! Section: Association-list model of `HashMap`

Rust `HashMap`s are modelled as association lists; `mapGet` is
`HashMap::get`, `eraseKey` is `HashMap::remove`, and `insertMap` is
`HashMap::insert`.  A `HashMap` never holds two entries with the same
key and its iteration order is unspecified, so every claim about map
contents is stated through `mapGet`. -/

/-- The modelled `HashMap::get` on the association-list model. -/
def mapGet {α : Type} (m : List (String × α)) (k : String) : Option α :=
  match m with
  | [] => none
  | (k', v) :: rest => if k' = k then some v else mapGet rest k

/-- The modelled `HashMap::remove` on the association-list model (drops every entry
holding the key). -/
def eraseKey {α : Type} (k : String) (m : List (String × α)) : List (String × α) :=
  m.filter (fun p => !(p.1 == k))

/-- The modelled `HashMap::insert` on the association-list model. -/
def insertMap {α : Type} (k : String) (v : α) (m : List (String × α)) : List (String × α) :=
  (k, v) :: eraseKey k m

/-- Removing a list of keys one after the other, as the `while` loop of
`AstIndex::remove` does. -/
def removeKeys {α : Type} (m : List (String × α)) (ks : List String) : List (String × α) :=
  ks.foldl (fun acc k => eraseKey k acc) m

/-- Inserting a list of key/value pairs one after the other, as the
`for (meta_path, declaration) in declarations.iter()` loop of
`add_or_update` does. -/
def insertList {α : Type} (ps : List (String × α)) (m : List (String × α)) : List (String × α) :=
  ps.foldl (fun acc p => insertMap p.1 p.2 acc) m

/-- The `self.usages.entry(usage.meta_path()).or_default().push(usage)`
loop of `add_or_update`: each usage is appended to the bucket stored
under its `meta_path`. -/
def groupUsages (us : List UsageSymbolInfo) (m : List (String × List UsageSymbolInfo)) :
    List (String × List UsageSymbolInfo) :=
  us.foldl (fun acc u => insertMap u.meta_path (((mapGet acc u.meta_path).getD []) ++ [u]) acc) m

/-- Modelled from the spec: a compiled per-file keyset is an immutable
finite-state set over the symbol paths (`fst::Set`, external to the
sources); it enumerates its keys in lexicographic order without
duplicates.  Building one from a `SortedVec` of keys is modelled as
sorting and deduplicating the list of keys. -/
def sortDedup (l : List String) : List String :=
  List.insertionSort (fun a b => a ≤ b) l.dedup

/-- The state of `AstIndex` (`ast_index.rs`, lines 18-24): the two
global maps and the two per-file keyset maps. -/
structure AstIndex where
  declarations : List (String × SymbolDeclarationStruct)
  declarations_search_index : List (String × List String)
  usages : List (String × List UsageSymbolInfo)
  usages_search_index : List (String × List String)
deriving DecidableEq, Repr

/-- The constructor `AstIndex::init` (lines 55-62). -/
def AstIndex.init : AstIndex :=
  { declarations := []
    declarations_search_index := []
    usages := []
    usages_search_index := [] }

/-- The method `AstIndex::remove` (lines 130-157): drop the file's two keysets and
delete from the global maps every key they contained.  The Rust method
always returns `Ok(())`, so it is modelled as a total state
transformer. -/
def AstIndex.remove (st : AstIndex) (path : String) : AstIndex :=
  let st1 :=
    match mapGet st.declarations_search_index path with
    | some meta_names =>
        { st with
          declarations := removeKeys st.declarations meta_names
          declarations_search_index := eraseKey path st.declarations_search_index }
    | none => st
  match mapGet st1.usages_search_index path with
  | some meta_names =>
      { st1 with
        usages := removeKeys st1.usages meta_names
        usages_search_index := eraseKey path st1.usages_search_index }
  | none => st1

/-- The helper `within_range` (lines 294-299): lexical enclosure of the usage range
by the declaration range, compared row-wise. -/
def within_range (decl_range : TSRange) (usage_range : TSRange) : Bool :=
  decide (decl_range.start_point.row ≤ usage_range.start_point.row) &&
    decide (decl_range.end_point.row ≥ usage_range.end_point.row)

/-- The `distance` computed for a declaration in
`link_declarations_to_usages` (lines 307-310):
`max(range.end_point.row - range.start_point.row, 0)`, the row-span of
the declaration (subtraction on `usize` is modelled by truncated `Nat`
subtraction). -/
def rowSpan (r : TSRange) : Nat :=
  max (r.end_point.row - r.start_point.row) 0

/-- One step of the inner `for (meta_path, declaration)` loop of
`link_declarations_to_usages` (lines 305-316), acting on the
accumulator `(closest_declaration, closest_declaration_rows_count)`. -/
def linkStep (usage_range : TSRange) (acc : Option String × Option Nat)
    (p : String × SymbolDeclarationStruct) : Option String × Option Nat :=
  if within_range p.2.definition_info.range usage_range then
    if acc.1.isNone ||
        decide ((acc.2.getD (rowSpan p.2.definition_info.range + 1)) <
          rowSpan p.2.definition_info.range) then
      (some p.1, some (rowSpan p.2.definition_info.range))
    else acc
  else acc

/-- The whole inner loop of `link_declarations_to_usages` for one usage:
fold `linkStep` over the declaration map in iteration order. -/
def linkFold (decls : List (String × SymbolDeclarationStruct)) (usage_range : TSRange) :
    Option String × Option Nat :=
  decls.foldl (linkStep usage_range) (none, none)

/-- The body of the outer loop of `link_declarations_to_usages`
(lines 301-325) for one usage: when the fold found a declaration the
usage's `declaration_symbol_path` is set to it, otherwise the usage is
left unchanged (a debug trace is emitted). -/
def linkOne (decls : List (String × SymbolDeclarationStruct)) (u : UsageSymbolInfo) :
    UsageSymbolInfo :=
  match (linkFold decls u.range).1 with
  | some closest_declaration => { u with declaration_meta_path := some closest_declaration }
  | none => u

/-- The function `link_declarations_to_usages` (lines 290-326).  The declaration
`HashMap` is modelled by the list of its entries in iteration order. -/
def link_declarations_to_usages (decls : List (String × SymbolDeclarationStruct))
    (usages : List UsageSymbolInfo) : List UsageSymbolInfo :=
  usages.map (linkOne decls)

/-- Modelled from the spec: the outcome of the effectful prefix of
`add_or_update` (adapter resolution by file extension, file reading,
declaration parsing, usage parsing), all of which are external to
`ast_index.rs`.  `parsed` carries the declaration map (as its iteration
sequence) and the usage list produced by the grammar adapter. -/
inductive ParseOutcome where
  | noAdapter (msg : String)
  | readError (msg : String)
  | declParseError (msg : String)
  | usageParseError (msg : String)
  | parsed (decls : List (String × SymbolDeclarationStruct)) (usages : List UsageSymbolInfo)
deriving DecidableEq, Repr

/-- Whether the outcome is one of the three failing steps (adapter
missing, unreadable file, parse failure). -/
def ParseOutcome.isErr : ParseOutcome → Bool
  | .noAdapter _ => true
  | .readError _ => true
  | .declParseError _ => true
  | .usageParseError _ => true
  | .parsed _ _ => false

/-- The method `AstIndex::add_or_update` (lines 64-128), modelled as a function
from the old state and the outcome of the external steps to the new
state and the returned `Result<(), String>`.  On the success path the
usages are linked, the file's previous entries are removed, and the new
declaration records, usage records and the two compiled keysets are
inserted.  (The `Set::from_iter` error branches are dead in the model
because building a finite-state set from a sorted key list cannot fail;
the error branch on `remove` is dead in the source as well since
`remove` always returns `Ok`.) -/
def AstIndex.add_or_update (st : AstIndex) (path : String) (outcome : ParseOutcome) :
    AstIndex × Except String Unit :=
  match outcome with
  | .noAdapter msg => (st, Except.error msg)
  | .readError msg => (st, Except.error msg)
  | .declParseError e => (st, Except.error ("Error parsing " ++ path ++ ": " ++ e))
  | .usageParseError e => (st, Except.error ("Error parsing " ++ path ++ ": " ++ e))
  | .parsed decls usages0 =>
      let usages := link_declarations_to_usages decls usages0
      let st := st.remove path
      let st :=
        { st with
          declarations := insertList decls st.declarations
          declarations_search_index :=
            insertMap path (sortDedup (decls.map Prod.fst)) st.declarations_search_index }
      let st :=
        { st with
          usages := groupUsages usages st.usages
          usages_search_index :=
            insertMap path (sortDedup (usages.map UsageSymbolInfo.meta_path))
              st.usages_search_index }
      (st, Except.ok ())

/-! Section: The query pipeline (`make_a_query`, `search_declarations`, `search_usages`)

The regex engine (`regex_automata`), the finite-state sets (`fst`) and
the similarity measure (`strsim::jaro_winkler`) are external crates, so
they are modelled from the spec: pattern compilation fails exactly on a
malformed pattern (modelled as unbalanced parentheses, enough for the
patterns considered here), a compiled pattern matches a key when the
pattern's literal body occurs case-insensitively inside the key, and
the similarity measure is an arbitrary rational-valued function passed
as a parameter. -/

/-- Whether `needle` is a prefix of `haystack` (over characters). -/
def isPrefixChars : List Char → List Char → Bool
  | [], _ => true
  | _ :: _, [] => false
  | a :: as, b :: bs => a == b && isPrefixChars as bs

/-- Whether `needle` occurs contiguously inside `haystack`. -/
def containsSub (needle : List Char) : List Char → Bool
  | [] => needle.isEmpty
  | b :: bs => isPrefixChars needle (b :: bs) || containsSub needle bs

/-- Parenthesis balance check over the pattern's characters. -/
def parensOk : List Char → Nat → Bool
  | [], 0 => true
  | [], _ + 1 => false
  | c :: rest, d =>
      if c = '(' then parensOk rest (d + 1)
      else if c = ')' then
        match d with
        | 0 => false
        | d' + 1 => parensOk rest d'
      else parensOk rest d

/-- The pattern's characters with a leading case-insensitivity marker
removed. -/
def stripCaseMarker (pattern : List Char) : List Char :=
  if isPrefixChars "(?i)".toList pattern then pattern.drop 4 else pattern

/-- Modelled from the spec: `regex_automata::dense::Builder::build`
(external to the sources).  Compilation fails exactly when the
pattern's parentheses are unbalanced (the spec's example of an invalid
pattern is an unmatched parenthesis); a compiled pattern matches a key,
unanchored and case-insensitively, when the pattern's body with the
grouping parentheses removed occurs inside the key. -/
def regexBuild (pattern : String) : Option (String → Bool) :=
  if parensOk pattern.toList 0 then
    some (fun key =>
      containsSub
        (((stripCaseMarker pattern.toList).map Char.toLower).filter
          (fun c => !(c == '(') && !(c == ')')))
        (key.toList.map Char.toLower))
  else none

/-- The function `make_a_query` (lines 27-52): compile the case-insensitive pattern,
then stream the union, over every per-file keyset except the exception
file's, of the keys accepted by the automaton.  `none` models the
panic of the unchecked `.unwrap()` on pattern compilation. -/
def make_a_query (nodes_indexes : List (String × List String)) (query_str : String)
    (exception_doc : Option String) : Option (List String) :=
  match regexBuild ("(?i)" ++ query_str) with
  | none => none
  | some matcher =>
      some (sortDedup
        (((nodes_indexes.filter (fun p =>
            match exception_doc with
            | some exception => decide (p.1 ≠ exception)
            | none => true)).map
          (fun p => p.2.filter matcher)).flatten))

/-- The constant `f32::MIN_POSITIVE`, the smallest positive normal `f32`, as a
rational number. -/
def f32_min_positive : ℚ := 1 / 2 ^ 126

/-- The candidate-filtering stage of `search_declarations`
(lines 168-172): resolve each found key in the global declaration map
and drop records with an empty symbol path. -/
def declCandidates (st : AstIndex) (found_keys : List String) :
    List SymbolDeclarationStruct :=
  (found_keys.filterMap (fun k => mapGet st.declarations k)).filter
    (fun k => !(k.meta_path == ""))

/-- The scoring stage of `search_declarations` (lines 174-179). -/
def declScored (sim : String → String → ℚ) (query : String)
    (cands : List SymbolDeclarationStruct) : List (SymbolDeclarationStruct × ℚ) :=
  cands.map (fun key =>
    (key, max (sim query key.meta_path) f32_min_positive *
      max (sim query key.name) f32_min_positive))

/-- The `sort_by(partial_cmp)` call of the search functions: a stable
sort ascending by score. -/
def sortByScore (l : List (SymbolDeclarationStruct × ℚ)) :
    List (SymbolDeclarationStruct × ℚ) :=
  List.insertionSort (fun a b => a.2 ≤ b.2) l

instance : IsTotal (SymbolDeclarationStruct × ℚ) (fun a b => a.2 ≤ b.2) :=
  ⟨fun a b => le_total a.2 b.2⟩

instance : IsTrans (SymbolDeclarationStruct × ℚ) (fun a b => a.2 ≤ b.2) :=
  ⟨fun _ _ _ h1 h2 => le_trans h1 h2⟩

/-- The `.rev().take(top_n)` applied to the sorted candidates. -/
def rankAndTake (top_n : Nat) (scored : List (SymbolDeclarationStruct × ℚ)) :
    List (SymbolDeclarationStruct × ℚ) :=
  ((sortByScore scored).reverse).take top_n

/-- The content-hydration loop of the search functions (lines 184-201
and 236-253): fetch each surviving declaration's content, silently
dropping a result whose file cannot be read.  The content fetch
(`SymbolDeclarationStruct::get_content`, outside the sources) is a
parameter. -/
def hydrate (getContent : SymbolDeclarationStruct → Option String)
    (l : List (SymbolDeclarationStruct × ℚ)) : List SymbolsSearchResultStruct :=
  l.filterMap (fun p =>
    (getContent p.1).map (fun content =>
      { symbol_declaration := p.1, content := content, sim_to_query := p.2 }))

/-- The method `AstIndex::search_declarations` (lines 159-203).  Here `sim` models
`strsim::jaro_winkler` and `getContent` models the content fetch, both
external to the sources; `none` models the panic on an invalid query
pattern. -/
def AstIndex.search_declarations (st : AstIndex) (query : String) (top_n : Nat)
    (exception_doc : Option String) (sim : String → String → ℚ)
    (getContent : SymbolDeclarationStruct → Option String) :
    Option (List SymbolsSearchResultStruct) :=
  (make_a_query st.declarations_search_index query exception_doc).map
    (fun found_keys =>
      hydrate getContent (rankAndTake top_n (declScored sim query (declCandidates st found_keys))))

/-- The candidate-filtering stage of `search_usages` (lines 214-220):
resolve each found key to its usage bucket, flatten, and drop usages
with an empty symbol path or an unset `declaration_symbol_path`. -/
def usageCandidates (st : AstIndex) (found_keys : List String) : List UsageSymbolInfo :=
  ((found_keys.filterMap (fun k => mapGet st.usages k)).flatten.filter
    (fun k => !(k.meta_path == ""))).filter
    (fun k => k.declaration_meta_path.isSome)

/-- The scoring-and-resolution stage of `search_usages`
(lines 222-231): look the usage's declaration path up in the global
declaration map, score the usage's own path, and keep only resolved
declarations. -/
def usageScored (st : AstIndex) (sim : String → String → ℚ) (query : String)
    (cands : List UsageSymbolInfo) : List (SymbolDeclarationStruct × ℚ) :=
  (cands.map (fun key =>
    (mapGet st.declarations (key.declaration_meta_path.getD ""),
      sim query key.meta_path))).filterMap
    (fun p => p.1.map (fun declaration => (declaration, p.2)))

/-- The method `AstIndex::search_usages` (lines 205-255). -/
def AstIndex.search_usages (st : AstIndex) (query : String) (top_n : Nat)
    (exception_doc : Option String) (sim : String → String → ℚ)
    (getContent : SymbolDeclarationStruct → Option String) :
    Option (List SymbolsSearchResultStruct) :=
  (make_a_query st.usages_search_index query exception_doc).map
    (fun found_keys =>
      hydrate getContent (rankAndTake top_n (usageScored st sim query (usageCandidates st found_keys))))


/-! Section: State predicates used by the invariant claims -/

/-- Extensional equality of two index states: the four maps agree on
every lookup (a Rust `HashMap` is extensional, whereas the
association-list model also carries an irrelevant entry order). -/
def AstIndex.Equiv (st1 st2 : AstIndex) : Prop :=
  (∀ k, mapGet st1.declarations k = mapGet st2.declarations k) ∧
  (∀ f, mapGet st1.declarations_search_index f = mapGet st2.declarations_search_index f) ∧
  (∀ k, mapGet st1.usages k = mapGet st2.usages k) ∧
  (∀ f, mapGet st1.usages_search_index f = mapGet st2.usages_search_index f)

/-- The invariant of claim C3: every key of every file's declaration
keyset resolves in the global declaration map to a record whose
`definition_info` names that file. -/
def DeclInv (st : AstIndex) : Prop :=
  ∀ F ks, mapGet st.declarations_search_index F = some ks →
    ∀ k ∈ ks, ∃ d, mapGet st.declarations k = some d ∧ d.definition_info.path = F

/-- Distinct files contribute disjoint declaration keysets (the absence
of the cross-file symbol-path collisions of spec §9). -/
def declKeysetsDisjoint (st : AstIndex) : Prop :=
  ∀ F G ksF ksG, F ≠ G → mapGet st.declarations_search_index F = some ksF →
    mapGet st.declarations_search_index G = some ksG → ∀ k, k ∈ ksF → k ∉ ksG

/-- The no-collision precondition of one `add_or_update` call: when the
call succeeds, the parsed declaration map has no duplicate keys, each
parsed record's `definition_info` names the updated file, and none of
the parsed keys occurs in another file's declaration keyset. -/
def AddNoCollision (st : AstIndex) (path : String) (outcome : ParseOutcome) : Prop :=
  ∀ decls usages, outcome = .parsed decls usages →
    (decls.map Prod.fst).Nodup ∧
    (∀ p ∈ decls, p.2.definition_info.path = path) ∧
    (∀ p ∈ decls, ∀ G ksG, G ≠ path →
      mapGet st.declarations_search_index G = some ksG → p.1 ∉ ksG)

/-- The states reachable from the empty index by `add_or_update` and
`remove` calls whose adds satisfy the no-collision precondition. -/
inductive ReachableNC : AstIndex → Prop where
  | init : ReachableNC AstIndex.init
  | add (st : AstIndex) (path : String) (outcome : ParseOutcome) :
      ReachableNC st → AddNoCollision st path outcome →
      ReachableNC (st.add_or_update path outcome).1
  | rem (st : AstIndex) (path : String) :
      ReachableNC st → ReachableNC (st.remove path)

/-- The invariant of claim C6 read at the level of the whole index:
every usage stored in a bucket of the global usage map whose
`declaration_symbol_path` is set resolves in the global declaration map
to a record whose range encloses the usage's range. -/
def UsageLinkInv (st : AstIndex) : Prop :=
  ∀ k bucket, mapGet st.usages k = some bucket → ∀ u ∈ bucket, ∀ D,
    u.declaration_meta_path = some D →
    ∃ d, mapGet st.declarations D = some d ∧
      within_range d.definition_info.range u.range = true

/-! Section: Concrete fixtures used by the witnesses and counterexamples -/

/-- A range spanning rows `a` to `b` (bytes and columns zero). -/
def mkRange (a b : Nat) : TSRange :=
  { start_byte := 0, end_byte := 0
    start_point := { row := a, column := 0 }, end_point := { row := b, column := 0 } }

/-- A declaration spanning rows 0-10 of `a.cpp`. -/
def declOuter : SymbolDeclarationStruct :=
  { meta_path := "outer", name := "outer"
    definition_info := { path := "a.cpp", range := mkRange 0 10 } }

/-- A declaration spanning rows 2-5 of `a.cpp`, nested inside
`declOuter`. -/
def declInner : SymbolDeclarationStruct :=
  { meta_path := "inner", name := "inner"
    definition_info := { path := "a.cpp", range := mkRange 2 5 } }

/-- A usage occurring on row 3 of `a.cpp`, with the
`declaration_symbol_path` not yet set. -/
def usageAt3 : UsageSymbolInfo :=
  { meta_path := "a.cpp::u", range := mkRange 3 3, declaration_meta_path := none }

/-- A declaration with symbol path `N::k` defined in `a.cpp`. -/
def declKA : SymbolDeclarationStruct :=
  { meta_path := "N::k", name := "k"
    definition_info := { path := "a.cpp", range := mkRange 0 1 } }

/-- A declaration with the same symbol path `N::k` defined in `b.cpp`
(a cross-file symbol-path collision, spec §9). -/
def declKB : SymbolDeclarationStruct :=
  { meta_path := "N::k", name := "k"
    definition_info := { path := "b.cpp", range := mkRange 7 8 } }

/-- A declaration `f` spanning rows 0-5 of `a.cpp`. -/
def declFA : SymbolDeclarationStruct :=
  { meta_path := "f", name := "f"
    definition_info := { path := "a.cpp", range := mkRange 0 5 } }

/-- A declaration with the same symbol path `f` in `b.cpp`, far away
from `a.cpp`'s usage rows. -/
def declFB : SymbolDeclarationStruct :=
  { meta_path := "f", name := "f"
    definition_info := { path := "b.cpp", range := mkRange 100 101 } }

/-- A declaration `N::g` defined in `b.cpp`. -/
def declGB : SymbolDeclarationStruct :=
  { meta_path := "N::g", name := "g"
    definition_info := { path := "b.cpp", range := mkRange 0 3 } }

/-- A usage on row 1 of `a.cpp`. -/
def usageA1 : UsageSymbolInfo :=
  { meta_path := "a.cpp::u1", range := mkRange 1 1, declaration_meta_path := none }

/-- A usage of `b.cpp` sharing its symbol path with `usageShareA`. -/
def usageShareB : UsageSymbolInfo :=
  { meta_path := "shared::u", range := mkRange 1 1, declaration_meta_path := none }

/-- A usage of `a.cpp` whose symbol path collides with `usageShareB`. -/
def usageShareA : UsageSymbolInfo :=
  { meta_path := "shared::u", range := mkRange 2 2, declaration_meta_path := none }

/-- A usage of `b.cpp` with its own symbol path. -/
def usageB1 : UsageSymbolInfo :=
  { meta_path := "b.cpp::u1", range := mkRange 1 1, declaration_meta_path := none }

/-- The index after adding `a.cpp` (declaration `N::k`). -/
def stA : AstIndex :=
  (AstIndex.init.add_or_update "a.cpp" (.parsed [("N::k", declKA)] [])).1

/-- The state `stA` after also adding `b.cpp`, whose declaration collides on the
symbol path `N::k`. -/
def stCollision : AstIndex :=
  (stA.add_or_update "b.cpp" (.parsed [("N::k", declKB)] [])).1

/-- The index after adding `a.cpp` with declaration `f` and a usage on
row 1 (which the linker binds to `f`). -/
def stLinked : AstIndex :=
  (AstIndex.init.add_or_update "a.cpp" (.parsed [("f", declFA)] [usageA1])).1

/-- The state `stLinked` after adding `b.cpp`, whose declaration collides on the
symbol path `f` and lies on faraway rows. -/
def stLinkedOverwritten : AstIndex :=
  (stLinked.add_or_update "b.cpp" (.parsed [("f", declFB)] [])).1

/-- The index after adding `b.cpp` with declaration `N::g` and usages
`b.cpp::u1` and `shared::u`. -/
def stB : AstIndex :=
  (AstIndex.init.add_or_update "b.cpp" (.parsed [("N::g", declGB)] [usageB1, usageShareB])).1

/-- The state `stB` after adding `a.cpp` once; its usage symbol path `shared::u`
collides with `b.cpp`'s bucket. -/
def stOnce : AstIndex :=
  (stB.add_or_update "a.cpp" (.parsed [] [usageShareA])).1

/-- The state `stOnce` after adding `a.cpp` a second time with identical
contents. -/
def stTwice : AstIndex :=
  (stOnce.add_or_update "a.cpp" (.parsed [] [usageShareA])).1

/-- The states reachable from the empty index by arbitrary
`add_or_update` and `remove` calls (no precondition). -/
inductive Reachable : AstIndex → Prop where
  | init : Reachable AstIndex.init
  | add (st : AstIndex) (path : String) (outcome : ParseOutcome) :
      Reachable st → Reachable (st.add_or_update path outcome).1
  | rem (st : AstIndex) (path : String) :
      Reachable st → Reachable (st.remove path)

/-- The search result carrying `declFA`, used by the C7 witness. -/
def resFA : SymbolsSearchResultStruct :=
  { symbol_declaration := declFA, content := "body", sim_to_query := 1 }

/-! Section: Lemmas about the association-list map operations -/

theorem mapGet_eraseKey {α : Type} (k k' : String) (m : List (String × α)) :
    mapGet (eraseKey k m) k' = if k' = k then none else mapGet m k' := by
  induction m with
  | nil => simp [eraseKey, mapGet]
  | cons p rest ih =>
    obtain ⟨a, v⟩ := p
    simp only [eraseKey, List.filter_cons] at ih ⊢
    by_cases hak : a = k <;> by_cases hk : a = k' <;>
      simp_all [mapGet]

theorem mapGet_insertMap {α : Type} (k k' : String) (v : α) (m : List (String × α)) :
    mapGet (insertMap k v m) k' = if k' = k then some v else mapGet m k' := by
  simp only [insertMap, mapGet, mapGet_eraseKey]
  by_cases hk : k = k'
  · subst hk; simp
  · simp [hk, Ne.symm hk]

theorem mapGet_removeKeys {α : Type} (m : List (String × α)) (ks : List String) (k : String) :
    mapGet (removeKeys m ks) k = if k ∈ ks then none else mapGet m k := by
  induction ks generalizing m with
  | nil => simp [removeKeys]
  | cons a rest ih =>
    simp only [removeKeys, List.foldl_cons] at ih ⊢
    rw [ih, mapGet_eraseKey]
    by_cases hk : k ∈ rest
    · simp [hk]
    · by_cases hak : k = a
      · subst hak; simp [hk]
      · simp [hk, hak]

theorem mapGet_insertList_not_mem {α : Type} (ps : List (String × α)) (m : List (String × α))
    (k : String) (hk : k ∉ ps.map Prod.fst) :
    mapGet (insertList ps m) k = mapGet m k := by
  induction ps generalizing m with
  | nil => rfl
  | cons p rest ih =>
    simp only [List.map_cons, List.mem_cons, not_or] at hk
    simp only [insertList, List.foldl_cons] at ih ⊢
    rw [ih _ hk.2, mapGet_insertMap]
    simp [hk.1]

theorem mapGet_insertList_mem {α : Type} (ps : List (String × α)) (m : List (String × α))
    (k : String) (v : α) (hnd : (ps.map Prod.fst).Nodup) (hmem : (k, v) ∈ ps) :
    mapGet (insertList ps m) k = some v := by
  induction ps generalizing m with
  | nil => cases hmem
  | cons p rest ih =>
    simp only [List.map_cons, List.nodup_cons] at hnd
    rcases List.mem_cons.mp hmem with h | h
    · subst h
      simp only [insertList, List.foldl_cons]
      have h2 : k ∉ rest.map Prod.fst := hnd.1
      have h3 : rest.foldl (fun acc p => insertMap p.1 p.2 acc) (insertMap k v m) =
          insertList rest (insertMap k v m) := rfl
      rw [h3, mapGet_insertList_not_mem _ _ _ h2, mapGet_insertMap]
      simp
    · simp only [insertList, List.foldl_cons]
      exact ih _ hnd.2 h

theorem mapGet_of_mem_nodup {α : Type} (m : List (String × α)) (k : String) (v : α)
    (hmem : (k, v) ∈ m) (hnd : (m.map Prod.fst).Nodup) :
    mapGet m k = some v := by
  induction m with
  | nil => cases hmem
  | cons p rest ih =>
    simp only [List.map_cons, List.nodup_cons] at hnd
    rcases List.mem_cons.mp hmem with h | h
    · subst h; simp [mapGet]
    · have hne : p.1 ≠ k := by
        intro he
        exact hnd.1 (he ▸ List.mem_map_of_mem Prod.fst h)
      obtain ⟨a, w⟩ := p
      simp only [mapGet, if_neg hne]
      exact ih h hnd.2

theorem mapGet_groupUsages (us : List UsageSymbolInfo)
    (m : List (String × List UsageSymbolInfo)) (k : String) :
    mapGet (groupUsages us m) k =
      if us.any (fun u => u.meta_path == k) then
        some (((mapGet m k).getD []) ++ us.filter (fun u => u.meta_path == k))
      else mapGet m k := by
  induction us generalizing m with
  | nil => simp [groupUsages]
  | cons u rest ih =>
    have h0 : groupUsages (u :: rest) m =
        groupUsages rest (insertMap u.meta_path (((mapGet m u.meta_path).getD []) ++ [u]) m) := rfl
    rw [h0, ih, mapGet_insertMap]
    by_cases hk : u.meta_path = k
    · have hbeq : (u.meta_path == k) = true := by simpa using hk
      simp only [List.any_cons, List.filter_cons, hbeq, Bool.true_or, if_true, hk, if_pos rfl]
      by_cases hr : rest.any (fun x => x.meta_path == k)
      · simp [hr]
      · simp only [hr, Bool.false_eq_true, if_false]
        have hfil : rest.filter (fun x => x.meta_path == k) = [] := by
          rw [List.filter_eq_nil_iff]
          intro a ha h2
          have h3 := List.any_eq_false.mp (Bool.not_eq_true _ ▸ hr) a ha
          rw [h2] at h3
          simp at h3
        simp [hfil]
    · have hbeq : (u.meta_path == k) = false := by simpa using hk
      have hne : k ≠ u.meta_path := fun h => hk h.symm
      simp only [List.any_cons, List.filter_cons, hbeq, Bool.false_or, if_neg hne,
        Bool.false_eq_true, if_false]

theorem mem_sortDedup (k : String) (l : List String) : k ∈ sortDedup l ↔ k ∈ l := by
  unfold sortDedup
  rw [(List.perm_insertionSort _ _).mem_iff, List.mem_dedup]

/-! Section: Characterization of `remove` and of the success path of `add_or_update` -/

theorem remove_declarations_get (st : AstIndex) (path k : String) :
    mapGet (st.remove path).declarations k =
      if k ∈ (mapGet st.declarations_search_index path).getD [] then none
      else mapGet st.declarations k := by
  unfold AstIndex.remove
  cases h1 : mapGet st.declarations_search_index path <;>
    cases h2 : mapGet st.usages_search_index path <;>
      simp [h1, h2, mapGet_removeKeys]

theorem remove_decl_idx_get (st : AstIndex) (path f : String) :
    mapGet (st.remove path).declarations_search_index f =
      if f = path then none else mapGet st.declarations_search_index f := by
  unfold AstIndex.remove
  cases h1 : mapGet st.declarations_search_index path <;>
    cases h2 : mapGet st.usages_search_index path <;>
      by_cases hf : f = path <;>
        simp [h1, h2, hf, mapGet_eraseKey]

theorem remove_usages_get (st : AstIndex) (path k : String) :
    mapGet (st.remove path).usages k =
      if k ∈ (mapGet st.usages_search_index path).getD [] then none
      else mapGet st.usages k := by
  unfold AstIndex.remove
  cases h1 : mapGet st.declarations_search_index path <;>
    cases h2 : mapGet st.usages_search_index path <;>
      simp [h1, h2, mapGet_removeKeys]

theorem remove_usage_idx_get (st : AstIndex) (path f : String) :
    mapGet (st.remove path).usages_search_index f =
      if f = path then none else mapGet st.usages_search_index f := by
  unfold AstIndex.remove
  cases h1 : mapGet st.declarations_search_index path <;>
    cases h2 : mapGet st.usages_search_index path <;>
      by_cases hf : f = path <;>
        simp [h1, h2, hf, mapGet_eraseKey]

theorem add_parsed_declarations (st : AstIndex) (path : String)
    (decls : List (String × SymbolDeclarationStruct)) (us0 : List UsageSymbolInfo) :
    ((st.add_or_update path (.parsed decls us0)).1).declarations
      = insertList decls (st.remove path).declarations := rfl

theorem add_parsed_decl_idx (st : AstIndex) (path : String)
    (decls : List (String × SymbolDeclarationStruct)) (us0 : List UsageSymbolInfo) :
    ((st.add_or_update path (.parsed decls us0)).1).declarations_search_index
      = insertMap path (sortDedup (decls.map Prod.fst))
          (st.remove path).declarations_search_index := rfl

theorem add_parsed_usages (st : AstIndex) (path : String)
    (decls : List (String × SymbolDeclarationStruct)) (us0 : List UsageSymbolInfo) :
    ((st.add_or_update path (.parsed decls us0)).1).usages
      = groupUsages (link_declarations_to_usages decls us0) (st.remove path).usages := rfl

theorem add_parsed_usage_idx (st : AstIndex) (path : String)
    (decls : List (String × SymbolDeclarationStruct)) (us0 : List UsageSymbolInfo) :
    ((st.add_or_update path (.parsed decls us0)).1).usages_search_index
      = insertMap path
          (sortDedup ((link_declarations_to_usages decls us0).map UsageSymbolInfo.meta_path))
          (st.remove path).usages_search_index := rfl

theorem add_parsed_ok (st : AstIndex) (path : String)
    (decls : List (String × SymbolDeclarationStruct)) (us0 : List UsageSymbolInfo) :
    (st.add_or_update path (.parsed decls us0)).2 = Except.ok () := rfl

/-! Section: Lemmas about the linker -/

theorem linkOne_meta_path (decls : List (String × SymbolDeclarationStruct))
    (u : UsageSymbolInfo) : (linkOne decls u).meta_path = u.meta_path := by
  unfold linkOne
  cases (linkFold decls u.range).1 <;> rfl

theorem linkOne_range (decls : List (String × SymbolDeclarationStruct))
    (u : UsageSymbolInfo) : (linkOne decls u).range = u.range := by
  unfold linkOne
  cases (linkFold decls u.range).1 <;> rfl

theorem linkFold_some (decls : List (String × SymbolDeclarationStruct)) (r : TSRange)
    (D : String) (h : (linkFold decls r).1 = some D) :
    ∃ d, (D, d) ∈ decls ∧ within_range d.definition_info.range r = true := by
  have main : ∀ (l : List (String × SymbolDeclarationStruct)) (acc : Option String × Option Nat),
      (l.foldl (linkStep r) acc).1 = some D →
      acc.1 = some D ∨ ∃ d, (D, d) ∈ l ∧ within_range d.definition_info.range r = true := by
    intro l
    induction l with
    | nil => intro acc h; exact Or.inl h
    | cons p rest ih =>
      intro acc h
      rcases ih _ h with h1 | h1
      · unfold linkStep at h1
        by_cases hw : within_range p.2.definition_info.range r = true
        · rw [if_pos hw] at h1
          by_cases hc : (acc.1.isNone ||
              decide ((acc.2.getD (rowSpan p.2.definition_info.range + 1)) <
                rowSpan p.2.definition_info.range)) = true
          · rw [if_pos hc] at h1
            have hD : some p.1 = some D := h1
            injection hD with hD
            right
            refine ⟨p.2, ?_, hw⟩
            rw [← hD]
            exact List.mem_cons_self _ _
          · rw [if_neg hc] at h1
            exact Or.inl h1
        · rw [if_neg hw] at h1
          exact Or.inl h1
      · exact Or.inr ⟨h1.choose, List.mem_cons_of_mem _ h1.choose_spec.1, h1.choose_spec.2⟩
  rcases main decls (none, none) h with h1 | h1
  · cases h1
  · exact h1

theorem linkOne_sound (decls : List (String × SymbolDeclarationStruct)) (u : UsageSymbolInfo)
    (D : String) (h0 : u.declaration_meta_path = none)
    (h : (linkOne decls u).declaration_meta_path = some D) :
    ∃ d, (D, d) ∈ decls ∧ within_range d.definition_info.range u.range = true := by
  unfold linkOne at h
  cases hf : (linkFold decls u.range).1 with
  | none => rw [hf] at h; rw [h0] at h; cases h
  | some D2 =>
      rw [hf] at h
      have hD : some D2 = some D := h
      injection hD with hD
      exact hD ▸ linkFold_some decls u.range D2 hf

/-! Section: Lemmas about the query pipeline -/

theorem mem_make_a_query (idx : List (String × List String)) (q : String)
    (exc : Option String) (keys : List String) (k : String)
    (h : make_a_query idx q exc = some keys) (hk : k ∈ keys) :
    ∃ f ks, (f, ks) ∈ idx ∧ (∀ e, exc = some e → f ≠ e) ∧ k ∈ ks := by
  unfold make_a_query at h
  cases hb : regexBuild ("(?i)" ++ q) with
  | none => rw [hb] at h; cases h
  | some matcher =>
      rw [hb] at h
      have hkeys : keys = sortDedup
          (((idx.filter (fun p =>
              match exc with
              | some exception => decide (p.1 ≠ exception)
              | none => true)).map (fun p => p.2.filter matcher)).flatten) := by
        injection h with h2
        exact h2.symm
      rw [hkeys, mem_sortDedup, List.mem_flatten] at hk
      obtain ⟨l, hl, hkl⟩ := hk
      rw [List.mem_map] at hl
      obtain ⟨p, hp, hpl⟩ := hl
      rw [List.mem_filter] at hp
      refine ⟨p.1, p.2, hp.1, ?_, ?_⟩
      · intro e he
        rw [he] at hp
        simpa using hp.2
      · rw [← hpl] at hkl
        exact (List.mem_filter.mp hkl).1

theorem mem_rankAndTake (n : Nat) (l : List (SymbolDeclarationStruct × ℚ))
    (p : SymbolDeclarationStruct × ℚ) (h : p ∈ rankAndTake n l) : p ∈ l := by
  unfold rankAndTake at h
  have h2 := (List.take_sublist _ _).mem h
  rw [List.mem_reverse] at h2
  exact (List.perm_insertionSort _ _).mem_iff.mp h2

theorem pairwise_rankAndTake (n : Nat) (l : List (SymbolDeclarationStruct × ℚ)) :
    List.Pairwise (fun a b => b.2 ≤ a.2) (rankAndTake n l) := by
  unfold rankAndTake sortByScore
  refine List.Pairwise.sublist (List.take_sublist _ _) ?_
  rw [List.pairwise_reverse]
  exact List.sorted_insertionSort _ l

theorem length_rankAndTake_le (n : Nat) (l : List (SymbolDeclarationStruct × ℚ)) :
    (rankAndTake n l).length ≤ n :=
  List.length_take_le _ _

theorem mem_hydrate (gc : SymbolDeclarationStruct → Option String)
    (l : List (SymbolDeclarationStruct × ℚ)) (r : SymbolsSearchResultStruct)
    (h : r ∈ hydrate gc l) :
    ∃ p ∈ l, r.symbol_declaration = p.1 ∧ r.sim_to_query = p.2 := by
  unfold hydrate at h
  rw [List.mem_filterMap] at h
  obtain ⟨p, hp, hr⟩ := h
  cases hg : gc p.1 with
  | none => rw [hg] at hr; cases hr
  | some c =>
      rw [hg] at hr
      have : some ({ symbol_declaration := p.1, content := c, sim_to_query := p.2 } :
          SymbolsSearchResultStruct) = some r := hr
      injection this with h2
      exact ⟨p, hp, by rw [← h2], by rw [← h2]⟩

theorem pairwise_hydrate (gc : SymbolDeclarationStruct → Option String)
    (l : List (SymbolDeclarationStruct × ℚ))
    (h : List.Pairwise (fun a b => b.2 ≤ a.2) l) :
    List.Pairwise (fun a b => b.sim_to_query ≤ a.sim_to_query) (hydrate gc l) := by
  unfold hydrate
  rw [List.pairwise_filterMap]
  refine h.imp_of_mem ?_
  intro a b _ _ hab
  intro x hx y hy
  cases hga : gc a.1 with
  | none => rw [hga] at hx; cases hx
  | some ca =>
      rw [hga] at hx
      cases hgb : gc b.1 with
      | none => rw [hgb] at hy; cases hy
      | some cb =>
          rw [hgb] at hy
          have hx2 : some ({ symbol_declaration := a.1, content := ca, sim_to_query := a.2 } :
              SymbolsSearchResultStruct) = some x := hx
          have hy2 : some ({ symbol_declaration := b.1, content := cb, sim_to_query := b.2 } :
              SymbolsSearchResultStruct) = some y := hy
          injection hx2 with hx2
          injection hy2 with hy2
          rw [← hx2, ← hy2]
          exact hab

theorem length_hydrate_le (gc : SymbolDeclarationStruct → Option String)
    (l : List (SymbolDeclarationStruct × ℚ)) : (hydrate gc l).length ≤ l.length :=
  List.length_filterMap_le _ _

theorem mem_declCandidates (st : AstIndex) (keys : List String)
    (d : SymbolDeclarationStruct) (h : d ∈ declCandidates st keys) :
    ∃ k ∈ keys, mapGet st.declarations k = some d := by
  unfold declCandidates at h
  have h2 := (List.mem_filter.mp h).1
  rw [List.mem_filterMap] at h2
  exact h2

theorem mem_declScored (sim : String → String → ℚ) (q : String)
    (cands : List SymbolDeclarationStruct) (p : SymbolDeclarationStruct × ℚ)
    (h : p ∈ declScored sim q cands) : p.1 ∈ cands := by
  unfold declScored at h
  rw [List.mem_map] at h
  obtain ⟨d, hd, hp⟩ := h
  rw [← hp]
  exact hd

theorem mem_usageCandidates (st : AstIndex) (keys : List String) (u : UsageSymbolInfo)
    (h : u ∈ usageCandidates st keys) :
    (∃ k ∈ keys, ∃ bucket, mapGet st.usages k = some bucket ∧ u ∈ bucket) ∧
      u.declaration_meta_path.isSome = true := by
  unfold usageCandidates at h
  have h1 := List.mem_filter.mp h
  have h2 := List.mem_filter.mp h1.1
  have h3 := h2.1
  rw [List.mem_flatten] at h3
  obtain ⟨bucket, hb, hub⟩ := h3
  rw [List.mem_filterMap] at hb
  obtain ⟨k, hk, hbk⟩ := hb
  exact ⟨⟨k, hk, bucket, hbk, hub⟩, h1.2⟩

theorem mem_usageScored (st : AstIndex) (sim : String → String → ℚ) (q : String)
    (cands : List UsageSymbolInfo) (p : SymbolDeclarationStruct × ℚ)
    (h : p ∈ usageScored st sim q cands) :
    ∃ u ∈ cands, mapGet st.declarations (u.declaration_meta_path.getD "") = some p.1 := by
  unfold usageScored at h
  rw [List.mem_filterMap] at h
  obtain ⟨q2, hq2, hp⟩ := h
  rw [List.mem_map] at hq2
  obtain ⟨u, hu, hq⟩ := hq2
  refine ⟨u, hu, ?_⟩
  rw [← hq] at hp
  cases hg : mapGet st.declarations (u.declaration_meta_path.getD "") with
  | none => rw [hg] at hp; cases hp
  | some d =>
      rw [hg] at hp
      have hp2 : some ((d, sim q u.meta_path)) = some p := hp
      injection hp2 with hp2
      rw [← hp2]

theorem search_declarations_some (st : AstIndex) (q : String) (n : Nat)
    (exc : Option String) (sim : String → String → ℚ)
    (gc : SymbolDeclarationStruct → Option String) (results : List SymbolsSearchResultStruct)
    (h : st.search_declarations q n exc sim gc = some results) :
    ∃ keys, make_a_query st.declarations_search_index q exc = some keys ∧
      results = hydrate gc (rankAndTake n (declScored sim q (declCandidates st keys))) := by
  unfold AstIndex.search_declarations at h
  cases hm : make_a_query st.declarations_search_index q exc with
  | none => rw [hm] at h; cases h
  | some keys =>
      rw [hm] at h
      have h2 : some (hydrate gc (rankAndTake n (declScored sim q (declCandidates st keys))))
          = some results := h
      injection h2 with h2
      exact ⟨keys, rfl, h2.symm⟩

theorem search_usages_some (st : AstIndex) (q : String) (n : Nat)
    (exc : Option String) (sim : String → String → ℚ)
    (gc : SymbolDeclarationStruct → Option String) (results : List SymbolsSearchResultStruct)
    (h : st.search_usages q n exc sim gc = some results) :
    ∃ keys, make_a_query st.usages_search_index q exc = some keys ∧
      results = hydrate gc (rankAndTake n (usageScored st sim q (usageCandidates st keys))) := by
  unfold AstIndex.search_usages at h
  cases hm : make_a_query st.usages_search_index q exc with
  | none => rw [hm] at h; cases h
  | some keys =>
      rw [hm] at h
      have h2 : some (hydrate gc (rankAndTake n (usageScored st sim q (usageCandidates st keys))))
          = some results := h
      injection h2 with h2
      exact ⟨keys, rfl, h2.symm⟩

theorem add_parsed_decl_idx_get (st : AstIndex) (path : String)
    (decls : List (String × SymbolDeclarationStruct)) (us0 : List UsageSymbolInfo)
    (f : String) :
    mapGet ((st.add_or_update path (.parsed decls us0)).1).declarations_search_index f =
      if f = path then some (sortDedup (decls.map Prod.fst))
      else mapGet st.declarations_search_index f := by
  rw [add_parsed_decl_idx, mapGet_insertMap]
  by_cases hf : f = path
  · simp [hf]
  · rw [if_neg hf, if_neg hf, remove_decl_idx_get, if_neg hf]

theorem add_parsed_usage_idx_get (st : AstIndex) (path : String)
    (decls : List (String × SymbolDeclarationStruct)) (us0 : List UsageSymbolInfo)
    (f : String) :
    mapGet ((st.add_or_update path (.parsed decls us0)).1).usages_search_index f =
      if f = path then
        some (sortDedup ((link_declarations_to_usages decls us0).map UsageSymbolInfo.meta_path))
      else mapGet st.usages_search_index f := by
  rw [add_parsed_usage_idx, mapGet_insertMap]
  by_cases hf : f = path
  · simp [hf]
  · rw [if_neg hf, if_neg hf, remove_usage_idx_get, if_neg hf]

theorem mem_keys_of_mem_keyset (decls : List (String × SymbolDeclarationStruct))
    (k : String) (hk : k ∈ sortDedup (decls.map Prod.fst)) :
    ∃ p ∈ decls, p.1 = k := by
  rw [mem_sortDedup, List.mem_map] at hk
  exact hk

theorem add_preserves_declInv (st : AstIndex) (path : String)
    (decls : List (String × SymbolDeclarationStruct)) (us0 : List UsageSymbolInfo)
    (hinv : DeclInv st) (hdisj : declKeysetsDisjoint st)
    (hnd : (decls.map Prod.fst).Nodup)
    (hpath : ∀ p ∈ decls, p.2.definition_info.path = path)
    (hcol : ∀ p ∈ decls, ∀ G ksG, G ≠ path →
      mapGet st.declarations_search_index G = some ksG → p.1 ∉ ksG) :
    DeclInv (st.add_or_update path (.parsed decls us0)).1 ∧
      declKeysetsDisjoint (st.add_or_update path (.parsed decls us0)).1 := by
  constructor
  · intro F ks hF k hk
    rw [add_parsed_decl_idx_get] at hF
    by_cases hFp : F = path
    · rw [if_pos hFp] at hF
      injection hF with hF
      rw [← hF] at hk
      obtain ⟨p, hp, hpk⟩ := mem_keys_of_mem_keyset decls k hk
      refine ⟨p.2, ?_, hFp ▸ hpath p hp⟩
      rw [add_parsed_declarations]
      exact mapGet_insertList_mem decls _ k p.2 hnd (by rw [← hpk]; exact hp)
    · rw [if_neg hFp] at hF
      obtain ⟨d, hd, hdF⟩ := hinv F ks hF k hk
      refine ⟨d, ?_, hdF⟩
      rw [add_parsed_declarations]
      have hknotin : k ∉ decls.map Prod.fst := by
        intro hmem
        rw [List.mem_map] at hmem
        obtain ⟨p, hp, hpk⟩ := hmem
        exact hcol p hp F ks hFp hF (hpk ▸ hk)
      rw [mapGet_insertList_not_mem _ _ _ hknotin, remove_declarations_get]
      cases hold : mapGet st.declarations_search_index path with
      | none => simpa [hold] using hd
      | some ksOld =>
          have : k ∉ ksOld := hdisj F path ks ksOld hFp hF hold k hk
          simpa [hold, this] using hd
  · intro F G ksF ksG hFG hgF hgG k hkF
    rw [add_parsed_decl_idx_get] at hgF hgG
    by_cases hFp : F = path
    · rw [if_pos hFp] at hgF
      have hGp : ¬ G = path := fun h => hFG (hFp.trans h.symm)
      rw [if_neg hGp] at hgG
      injection hgF with hgF
      rw [← hgF] at hkF
      obtain ⟨p, hp, hpk⟩ := mem_keys_of_mem_keyset decls k hkF
      exact hpk ▸ hcol p hp G ksG hGp hgG
    · rw [if_neg hFp] at hgF
      by_cases hGp : G = path
      · rw [if_pos hGp] at hgG
        injection hgG with hgG
        intro hkG
        rw [← hgG] at hkG
        obtain ⟨p, hp, hpk⟩ := mem_keys_of_mem_keyset decls k hkG
        exact hcol p hp F ksF hFp hgF (hpk ▸ hkF)
      · rw [if_neg hGp] at hgG
        exact hdisj F G ksF ksG hFG hgF hgG k hkF

theorem remove_preserves_declInv (st : AstIndex) (path : String)
    (hinv : DeclInv st) (hdisj : declKeysetsDisjoint st) :
    DeclInv (st.remove path) ∧ declKeysetsDisjoint (st.remove path) := by
  constructor
  · intro F ks hF k hk
    rw [remove_decl_idx_get] at hF
    by_cases hFp : F = path
    · rw [if_pos hFp] at hF; cases hF
    · rw [if_neg hFp] at hF
      obtain ⟨d, hd, hdF⟩ := hinv F ks hF k hk
      refine ⟨d, ?_, hdF⟩
      rw [remove_declarations_get]
      cases hold : mapGet st.declarations_search_index path with
      | none => simpa [hold] using hd
      | some ksOld =>
          have : k ∉ ksOld := hdisj F path ks ksOld hFp hF hold k hk
          simpa [hold, this] using hd
  · intro F G ksF ksG hFG hgF hgG k hkF
    rw [remove_decl_idx_get] at hgF hgG
    by_cases hFp : F = path
    · rw [if_pos hFp] at hgF; cases hgF
    · by_cases hGp : G = path
      · rw [if_pos hGp] at hgG; cases hgG
      · rw [if_neg hFp] at hgF
        rw [if_neg hGp] at hgG
        exact hdisj F G ksF ksG hFG hgF hgG k hkF

theorem reachableNC_inv (st : AstIndex) (h : ReachableNC st) :
    DeclInv st ∧ declKeysetsDisjoint st := by
  induction h with
  | init =>
      constructor
      · intro F ks hF; cases hF
      · intro F G ksF ksG _ hgF; cases hgF
  | add st path outcome _ hnc ih =>
      cases outcome with
      | noAdapter msg => exact ih
      | readError msg => exact ih
      | declParseError msg => exact ih
      | usageParseError msg => exact ih
      | parsed decls us0 =>
          obtain ⟨hnd, hpath, hcol⟩ := hnc decls us0 rfl
          exact add_preserves_declInv st path decls us0 ih.1 ih.2 hnd hpath hcol
  | rem st path _ ih =>
      exact remove_preserves_declInv st path ih.1 ih.2

theorem link_map_meta (decls : List (String × SymbolDeclarationStruct))
    (us0 : List UsageSymbolInfo) :
    (link_declarations_to_usages decls us0).map UsageSymbolInfo.meta_path
      = us0.map UsageSymbolInfo.meta_path := by
  unfold link_declarations_to_usages
  rw [List.map_map]
  exact List.map_congr_left (fun u _ => linkOne_meta_path decls u)

/-! Section: The claims -/

/-- C1.  The claim says the linker binds a usage to the enclosing
declaration with the smallest row-span (the innermost scope).  The code
does the opposite: its comparison
`closest_declaration_rows_count.unwrap_or(distance + 1) < distance`
replaces the stored candidate whenever the stored span is smaller, so
the enclosing declaration with the largest row-span (the outermost
scope) wins, in either iteration order of the declaration map.  Here
`declInner` (rows 2-5) and `declOuter` (rows 0-10) both enclose the
usage on row 3, `declInner` has the strictly smaller row-span, yet the
linker picks `declOuter`. -/
theorem spec_c1_linker_picks_outermost :
    link_declarations_to_usages [("outer", declOuter), ("inner", declInner)] [usageAt3]
      = [{ usageAt3 with declaration_meta_path := some "outer" }] ∧
    link_declarations_to_usages [("inner", declInner), ("outer", declOuter)] [usageAt3]
      = [{ usageAt3 with declaration_meta_path := some "outer" }] ∧
    within_range declInner.definition_info.range usageAt3.range = true ∧
    within_range declOuter.definition_info.range usageAt3.range = true ∧
    rowSpan declInner.definition_info.range < rowSpan declOuter.definition_info.range := by
  decide

/-- C2.  When `add_or_update` fails because the adapter is missing, the
file is unreadable, or one of the two parses fails, the call returns an
error string and leaves the whole index state unchanged. -/
theorem spec_c2_failed_update_preserves_state (st : AstIndex) (path : String)
    (outcome : ParseOutcome) (h : outcome.isErr = true) :
    (st.add_or_update path outcome).1 = st ∧
      ∃ e, (st.add_or_update path outcome).2 = Except.error e := by
  cases outcome with
  | noAdapter msg => exact ⟨rfl, msg, rfl⟩
  | readError msg => exact ⟨rfl, msg, rfl⟩
  | declParseError msg => exact ⟨rfl, "Error parsing " ++ path ++ ": " ++ msg, rfl⟩
  | usageParseError msg => exact ⟨rfl, "Error parsing " ++ path ++ ": " ++ msg, rfl⟩
  | parsed decls us0 => cases h

/-- Witness for C2 at a concrete input: a failing update of `x.unknown`
leaves `stLinked` unchanged and reports an error. -/
theorem spec_c2_witness :
    (ParseOutcome.noAdapter "unsupported").isErr = true ∧
    ((stLinked.add_or_update "x.unknown" (.noAdapter "unsupported")).1 = stLinked ∧
      ∃ e, (stLinked.add_or_update "x.unknown" (.noAdapter "unsupported")).2
        = Except.error e) :=
  ⟨by decide, spec_c2_failed_update_preserves_state stLinked "x.unknown" _ (by decide)⟩

/-- Counterexample to C3 as stated: `stCollision` is reachable by two
plain `add_or_update` calls, yet after `b.cpp` overwrites the shared
symbol path `N::k`, the key `N::k` of `a.cpp`'s keyset resolves to a
record whose `definition_info` names `b.cpp`, not `a.cpp`. -/
theorem spec_c3_counterexample :
    Reachable stCollision ∧ ¬ DeclInv stCollision := by
  constructor
  · show Reachable ((stA.add_or_update "b.cpp" (.parsed [("N::k", declKB)] [])).1)
    refine Reachable.add _ _ _ ?_
    show Reachable ((AstIndex.init.add_or_update "a.cpp" (.parsed [("N::k", declKA)] [])).1)
    exact Reachable.add _ _ _ Reachable.init
  · intro h
    obtain ⟨d, hd, hdF⟩ := h "a.cpp" ["N::k"] (by decide) "N::k" (by decide)
    have hd2 : d = declKB := by
      have h2 : mapGet stCollision.declarations "N::k" = some declKB := by decide
      rw [h2] at hd
      injection hd with h3
      exact h3.symm
    rw [hd2] at hdF
    exact absurd hdF (by decide)

/-- C3 (amended).  After every sequence of `add_or_update` and `remove`
operations in which no add contributes a declaration symbol path
already present in another file's keyset (and parsed records name their
own file), every key of every file's declaration keyset resolves in the
global declaration map to a record whose `definition_info` names that
file. -/
theorem spec_c3_decl_keyset_invariant (st : AstIndex) (h : ReachableNC st) : DeclInv st :=
  (reachableNC_inv st h).1

/-- Witness for C3 at a concrete input: the invariant holds for the
state reached by one collision-free add. -/
theorem spec_c3_witness : DeclInv stA :=
  spec_c3_decl_keyset_invariant stA (by
    show ReachableNC ((AstIndex.init.add_or_update "a.cpp" (.parsed [("N::k", declKA)] [])).1)
    refine ReachableNC.add _ _ _ ReachableNC.init ?_
    intro decls usages he
    injection he with h1 h2
    subst h1
    refine ⟨by decide, by decide, ?_⟩
    intro p hp G ksG hG hks
    simp [AstIndex.init, mapGet] at hks)

/-- Counterexample to C4 as stated: `a.cpp` is the only indexed file of
`stA` (so no other file contributes a colliding path), yet re-adding
`a.cpp` and then removing it does not restore `stA` — the declaration
`N::k` that `stA` held is gone. -/
theorem spec_c4_counterexample :
    stA.declarations_search_index = [("a.cpp", ["N::k"])] ∧
    stA.usages_search_index = [("a.cpp", [])] ∧
    ¬ AstIndex.Equiv
        (((stA.add_or_update "a.cpp" (.parsed [("N::k", declKA)] [])).1).remove "a.cpp")
        stA := by
  refine ⟨by decide, by decide, ?_⟩
  intro h
  exact absurd (h.1 "N::k") (by decide)

/-- C4 (amended).  For a file that is not yet indexed and whose parsed
symbol paths do not occur in the global maps, a successful
`add_or_update` followed by `remove` returns the index, extensionally,
to the pre-state: no declaration key, usage key, or keyset introduced
by the file remains in any of the four maps. -/
theorem spec_c4_roundtrip (st : AstIndex) (path : String)
    (decls : List (String × SymbolDeclarationStruct)) (us0 : List UsageSymbolInfo)
    (hF1 : mapGet st.declarations_search_index path = none)
    (hF2 : mapGet st.usages_search_index path = none)
    (hdk : ∀ p ∈ decls, mapGet st.declarations p.1 = none)
    (huk : ∀ u ∈ us0, mapGet st.usages u.meta_path = none) :
    (st.add_or_update path (.parsed decls us0)).2 = Except.ok () ∧
      AstIndex.Equiv (((st.add_or_update path (.parsed decls us0)).1).remove path) st := by
  refine ⟨rfl, ?_, ?_, ?_, ?_⟩
  · intro k
    rw [remove_declarations_get]
    have hks : mapGet ((st.add_or_update path
        (.parsed decls us0)).1).declarations_search_index path
        = some (sortDedup (decls.map Prod.fst)) := by
      rw [add_parsed_decl_idx_get, if_pos rfl]
    rw [hks]
    simp only [Option.getD_some]
    by_cases hk : k ∈ sortDedup (decls.map Prod.fst)
    · rw [if_pos hk]
      obtain ⟨p, hp, hpk⟩ := mem_keys_of_mem_keyset decls k hk
      exact (hpk ▸ hdk p hp).symm
    · rw [if_neg hk]
      rw [add_parsed_declarations]
      have hnk : k ∉ decls.map Prod.fst := fun hm => hk ((mem_sortDedup _ _).mpr hm)
      rw [mapGet_insertList_not_mem _ _ _ hnk, remove_declarations_get, hF1]
      simp
  · intro f
    rw [remove_decl_idx_get]
    by_cases hf : f = path
    · rw [if_pos hf, hf, hF1]
    · rw [if_neg hf, add_parsed_decl_idx_get, if_neg hf]
  · intro k
    rw [remove_usages_get]
    have hks : mapGet ((st.add_or_update path (.parsed decls us0)).1).usages_search_index path
        = some (sortDedup ((link_declarations_to_usages decls us0).map
            UsageSymbolInfo.meta_path)) := by
      rw [add_parsed_usage_idx_get, if_pos rfl]
    rw [hks]
    simp only [Option.getD_some]
    by_cases hk : k ∈ sortDedup ((link_declarations_to_usages decls us0).map
        UsageSymbolInfo.meta_path)
    · rw [if_pos hk]
      have hk2 := (mem_sortDedup _ _).mp hk
      rw [link_map_meta, List.mem_map] at hk2
      obtain ⟨u, hu, huk2⟩ := hk2
      exact (huk2 ▸ huk u hu).symm
    · rw [if_neg hk]
      rw [add_parsed_usages, mapGet_groupUsages]
      have hany : ¬ ((link_declarations_to_usages decls us0).any
          (fun u => u.meta_path == k) = true) := by
        intro ha
        rw [List.any_eq_true] at ha
        obtain ⟨u, hu, hbeq⟩ := ha
        refine hk ((mem_sortDedup _ _).mpr ?_)
        rw [List.mem_map]
        exact ⟨u, hu, by simpa using hbeq⟩
      rw [if_neg hany, remove_usages_get, hF2]
      simp
  · intro f
    rw [remove_usage_idx_get]
    by_cases hf : f = path
    · rw [if_pos hf, hf, hF2]
    · rw [if_neg hf, add_parsed_usage_idx_get, if_neg hf]

/-- Witness for C4 at a concrete input: adding `a.cpp` to the
one-file index `stB` and removing it restores `stB` extensionally. -/
theorem spec_c4_witness :
    mapGet stB.declarations_search_index "a.cpp" = none ∧
    mapGet stB.usages_search_index "a.cpp" = none ∧
    (∀ p ∈ [("N::k", declKA)], mapGet stB.declarations p.1 = none) ∧
    (∀ u ∈ [usageA1], mapGet stB.usages u.meta_path = none) ∧
    ((stB.add_or_update "a.cpp" (.parsed [("N::k", declKA)] [usageA1])).2 = Except.ok () ∧
      AstIndex.Equiv
        (((stB.add_or_update "a.cpp" (.parsed [("N::k", declKA)] [usageA1])).1).remove "a.cpp")
        stB) :=
  ⟨by decide, by decide, by decide, by decide,
    spec_c4_roundtrip stB "a.cpp" [("N::k", declKA)] [usageA1]
      (by decide) (by decide) (by decide) (by decide)⟩

/-- Counterexample to C5 as stated: `b.cpp` already contributes a usage
bucket under the symbol path `shared::u`.  Adding `a.cpp` (whose usage
shares that path) once leaves both usages in the bucket; adding it a
second time first deletes the whole bucket and reinserts only
`a.cpp`'s usage, so the global usage maps differ. -/
theorem spec_c5_counterexample :
    (stOnce.add_or_update "a.cpp" (.parsed [] [usageShareA])).2 = Except.ok () ∧
    ¬ ((∀ k, mapGet stTwice.declarations k = mapGet stOnce.declarations k) ∧
        (∀ k, mapGet stTwice.usages k = mapGet stOnce.usages k)) := by
  refine ⟨rfl, ?_⟩
  intro h
  exact absurd (h.2 "shared::u") (by decide)

/-- C5 (amended).  When the parsed declaration map has no duplicate
keys and no usage bucket under one of the file's usage symbol paths
survives the file's removal (no other file contributes a usage with the
same path), running `add_or_update` twice with identical parsed
contents leaves the global declaration map and the global usage map
with the same content as running it once. -/
theorem spec_c5_idempotent (st0 : AstIndex) (path : String)
    (decls : List (String × SymbolDeclarationStruct)) (us0 : List UsageSymbolInfo)
    (hnd : (decls.map Prod.fst).Nodup)
    (hbkt : ∀ u ∈ us0, mapGet (st0.remove path).usages u.meta_path = none) :
    ((st0.add_or_update path (.parsed decls us0)).1.add_or_update path
        (.parsed decls us0)).2 = Except.ok () ∧
    (∀ k, mapGet ((st0.add_or_update path (.parsed decls us0)).1.add_or_update path
        (.parsed decls us0)).1.declarations k
      = mapGet (st0.add_or_update path (.parsed decls us0)).1.declarations k) ∧
    (∀ k, mapGet ((st0.add_or_update path (.parsed decls us0)).1.add_or_update path
        (.parsed decls us0)).1.usages k
      = mapGet (st0.add_or_update path (.parsed decls us0)).1.usages k) := by
  refine ⟨rfl, ?_, ?_⟩
  · intro k
    rw [add_parsed_declarations ((st0.add_or_update path (.parsed decls us0)).1)]
    by_cases hk : k ∈ decls.map Prod.fst
    · rw [List.mem_map] at hk
      obtain ⟨p, hp, hpk⟩ := hk
      have hmem : (k, p.2) ∈ decls := by rw [← hpk]; exact hp
      rw [mapGet_insertList_mem decls _ k p.2 hnd hmem, add_parsed_declarations,
        mapGet_insertList_mem decls _ k p.2 hnd hmem]
    · rw [mapGet_insertList_not_mem _ _ _ hk, remove_declarations_get,
        add_parsed_decl_idx_get, if_pos rfl]
      simp only [Option.getD_some]
      rw [if_neg (fun hm => hk ((mem_sortDedup _ _).mp hm))]
  · intro k
    rw [add_parsed_usages ((st0.add_or_update path (.parsed decls us0)).1)]
    rw [mapGet_groupUsages]
    by_cases hany : (link_declarations_to_usages decls us0).any
        (fun u => u.meta_path == k) = true
    · rw [if_pos hany]
      rw [add_parsed_usages st0, mapGet_groupUsages, if_pos hany]
      have hin1 : mapGet ((st0.add_or_update path
          (.parsed decls us0)).1.remove path).usages k = none := by
        rw [remove_usages_get, add_parsed_usage_idx_get, if_pos rfl]
        simp only [Option.getD_some]
        rw [List.any_eq_true] at hany
        obtain ⟨u, hu, hbeq⟩ := hany
        rw [if_pos ((mem_sortDedup _ _).mpr (List.mem_map.mpr ⟨u, hu, by simpa using hbeq⟩))]
      have hin0 : mapGet (st0.remove path).usages k = none := by
        rw [List.any_eq_true] at hany
        obtain ⟨u, hu, hbeq⟩ := hany
        obtain ⟨v, hv, hvu⟩ := (by
          unfold link_declarations_to_usages at hu
          exact List.mem_map.mp hu)
        have hmeta : v.meta_path = k := by
          have h2 : u.meta_path = k := by simpa using hbeq
          rw [← h2, ← hvu, linkOne_meta_path]
        exact hmeta ▸ hbkt v hv
      rw [hin1, hin0]
    · rw [if_neg hany, remove_usages_get, add_parsed_usage_idx_get, if_pos rfl]
      simp only [Option.getD_some]
      rw [if_neg (fun hm => ?_)]
      have hm2 := (mem_sortDedup _ _).mp hm
      rw [List.mem_map] at hm2
      obtain ⟨u, hu, huk2⟩ := hm2
      exact hany (List.any_eq_true.mpr ⟨u, hu, by simpa using huk2⟩)

/-- Witness for C5 at a concrete input: re-adding `a.cpp` (declaration
`N::k`, usage `a.cpp::u1`, no colliding paths) over `stB` is
idempotent on both global maps. -/
theorem spec_c5_witness :
    ([("N::k", declKA)].map Prod.fst).Nodup ∧
    (∀ u ∈ [usageA1], mapGet (stB.remove "a.cpp").usages u.meta_path = none) ∧
    (((stB.add_or_update "a.cpp" (.parsed [("N::k", declKA)] [usageA1])).1.add_or_update
        "a.cpp" (.parsed [("N::k", declKA)] [usageA1])).2 = Except.ok () ∧
      (∀ k, mapGet ((stB.add_or_update "a.cpp"
          (.parsed [("N::k", declKA)] [usageA1])).1.add_or_update "a.cpp"
          (.parsed [("N::k", declKA)] [usageA1])).1.declarations k
        = mapGet (stB.add_or_update "a.cpp"
            (.parsed [("N::k", declKA)] [usageA1])).1.declarations k) ∧
      (∀ k, mapGet ((stB.add_or_update "a.cpp"
          (.parsed [("N::k", declKA)] [usageA1])).1.add_or_update "a.cpp"
          (.parsed [("N::k", declKA)] [usageA1])).1.usages k
        = mapGet (stB.add_or_update "a.cpp"
            (.parsed [("N::k", declKA)] [usageA1])).1.usages k)) :=
  ⟨by decide, by decide,
    spec_c5_idempotent stB "a.cpp" [("N::k", declKA)] [usageA1] (by decide) (by decide)⟩

/-- Counterexample to C6 as stated: `stLinkedOverwritten` is reachable
by two plain adds; the usage of `a.cpp` is linked to `f`, but `b.cpp`'s
colliding declaration has overwritten the global entry for `f` with a
record on rows 100-101, which does not enclose the usage on row 1. -/
theorem spec_c6_counterexample :
    Reachable stLinkedOverwritten ∧ ¬ UsageLinkInv stLinkedOverwritten := by
  constructor
  · show Reachable ((stLinked.add_or_update "b.cpp" (.parsed [("f", declFB)] [])).1)
    refine Reachable.add _ _ _ ?_
    show Reachable ((AstIndex.init.add_or_update "a.cpp" (.parsed [("f", declFA)] [usageA1])).1)
    exact Reachable.add _ _ _ Reachable.init
  · intro h
    obtain ⟨d, hd, hw⟩ := h "a.cpp::u1" [{ usageA1 with declaration_meta_path := some "f" }]
      (by decide) { usageA1 with declaration_meta_path := some "f" } (by decide) "f" (by decide)
    have hd2 : d = declFB := by
      have h2 : mapGet stLinkedOverwritten.declarations "f" = some declFB := by decide
      rw [h2] at hd
      injection hd with h3
      exact h3.symm
    rw [hd2] at hw
    exact absurd hw (by decide)

/-- C6 (amended).  Every usage whose `declaration_symbol_path` the
linker set during an `add_or_update` resolves, in the global
declaration map immediately after that call, to a declaration whose
range lexically encloses the usage's range (a later add of another
file contributing the same symbol path may overwrite the entry). -/
theorem spec_c6_linked_encloses (st : AstIndex) (path : String)
    (decls : List (String × SymbolDeclarationStruct)) (us0 : List UsageSymbolInfo)
    (u : UsageSymbolInfo) (D : String)
    (hnd : (decls.map Prod.fst).Nodup)
    (hu : u ∈ link_declarations_to_usages decls us0)
    (hfresh : ∀ v ∈ us0, v.declaration_meta_path = none)
    (hD : u.declaration_meta_path = some D) :
    ∃ d, mapGet ((st.add_or_update path (.parsed decls us0)).1).declarations D = some d ∧
      within_range d.definition_info.range u.range = true := by
  unfold link_declarations_to_usages at hu
  rw [List.mem_map] at hu
  obtain ⟨v, hv, huv⟩ := hu
  obtain ⟨d, hd, hw⟩ := linkOne_sound decls v D (hfresh v hv) (by rw [huv]; exact hD)
  refine ⟨d, ?_, ?_⟩
  · rw [add_parsed_declarations]
    exact mapGet_insertList_mem decls _ D d hnd hd
  · rw [← huv, linkOne_range]
    exact hw

/-- Witness for C6 at a concrete input: the usage of `a.cpp` bound to
`f` resolves, right after the add, to `declFA`, whose rows 0-5 enclose
the usage's row 1. -/
theorem spec_c6_witness :
    ([("f", declFA)].map Prod.fst).Nodup ∧
    ({ usageA1 with declaration_meta_path := some "f" } : UsageSymbolInfo)
      ∈ link_declarations_to_usages [("f", declFA)] [usageA1] ∧
    (∀ v ∈ [usageA1], v.declaration_meta_path = none) ∧
    (∃ d, mapGet ((AstIndex.init.add_or_update "a.cpp"
        (.parsed [("f", declFA)] [usageA1])).1).declarations "f" = some d ∧
      within_range d.definition_info.range
        ({ usageA1 with declaration_meta_path := some "f" } : UsageSymbolInfo).range = true) :=
  ⟨by decide, by decide, by decide,
    spec_c6_linked_encloses AstIndex.init "a.cpp" [("f", declFA)] [usageA1]
      { usageA1 with declaration_meta_path := some "f" } "f"
      (by decide) (by decide) (by decide) (by decide)⟩

/-- C7.  Every result of `search_usages` is the declaration record
obtained by looking up a candidate usage's `declaration_symbol_path` in
the global declaration map; usages with an unset path or an unresolved
path contribute nothing. -/
theorem spec_c7_usage_results_resolved (st : AstIndex) (q : String) (n : Nat)
    (exc : Option String) (sim : String → String → ℚ)
    (gc : SymbolDeclarationStruct → Option String)
    (results : List SymbolsSearchResultStruct) (r : SymbolsSearchResultStruct)
    (h : st.search_usages q n exc sim gc = some results) (hr : r ∈ results) :
    ∃ k bucket u D, mapGet st.usages k = some bucket ∧ u ∈ bucket ∧
      u.declaration_meta_path = some D ∧
      mapGet st.declarations D = some r.symbol_declaration := by
  obtain ⟨keys, hkeys, hres⟩ := search_usages_some st q n exc sim gc results h
  rw [hres] at hr
  obtain ⟨p, hp, hrd, _⟩ := mem_hydrate gc _ r hr
  have hp2 := mem_rankAndTake n _ p hp
  obtain ⟨u, hu, hud⟩ := mem_usageScored st sim q _ p hp2
  obtain ⟨⟨k, _, bucket, hbk, hub⟩, hsome⟩ := mem_usageCandidates st keys u hu
  obtain ⟨D, hDu⟩ := Option.isSome_iff_exists.mp hsome
  refine ⟨k, bucket, u, D, hbk, hub, hDu, ?_⟩
  rw [hDu] at hud
  simp only [Option.getD_some] at hud
  rw [hrd]
  exact hud

/-- Witness for C7 at a concrete input: searching usages of `stLinked`
for `u` returns exactly the resolved declaration `declFA`. -/
theorem spec_c7_witness :
    stLinked.search_usages "u" 10 none (fun _ _ => 1) (fun _ => some "body")
      = some [resFA] ∧
    ∃ k bucket u D, mapGet stLinked.usages k = some bucket ∧ u ∈ bucket ∧
      u.declaration_meta_path = some D ∧
      mapGet stLinked.declarations D = some resFA.symbol_declaration :=
  ⟨by decide, spec_c7_usage_results_resolved stLinked "u" 10 none (fun _ _ => 1)
    (fun _ => some "body") [resFA] resFA (by decide) (by decide)⟩

/-- C8.  The results of `search_declarations` come out in monotonically
non-increasing similarity order, and at most `top_n` of them. -/
theorem spec_c8_sorted_bounded (st : AstIndex) (q : String) (n : Nat)
    (exc : Option String) (sim : String → String → ℚ)
    (gc : SymbolDeclarationStruct → Option String)
    (results : List SymbolsSearchResultStruct)
    (h : st.search_declarations q n exc sim gc = some results) :
    List.Pairwise (fun a b => b.sim_to_query ≤ a.sim_to_query) results ∧
      results.length ≤ n := by
  obtain ⟨keys, _, hres⟩ := search_declarations_some st q n exc sim gc results h
  rw [hres]
  exact ⟨pairwise_hydrate _ _ (pairwise_rankAndTake _ _),
    le_trans (length_hydrate_le _ _) (length_rankAndTake_le _ _)⟩

/-- Witness for C8 at a concrete input. -/
theorem spec_c8_witness :
    stLinked.search_declarations "f" 10 none (fun _ _ => 1) (fun _ => none) = some [] ∧
    (List.Pairwise (fun a b => b.sim_to_query ≤ a.sim_to_query)
        ([] : List SymbolsSearchResultStruct) ∧
      ([] : List SymbolsSearchResultStruct).length ≤ 10) :=
  ⟨by decide, spec_c8_sorted_bounded stLinked "f" 10 none (fun _ _ => 1) (fun _ => none)
    [] (by decide)⟩

/-- C9.  With an exception file, every declaration-search result and
every usage-search result arises from a candidate key found in some
other file's keyset, so a symbol path present only in the exception
file's keysets never reaches the results. -/
theorem spec_c9_exception_masking (st : AstIndex) (q : String) (n : Nat) (F : String)
    (sim : String → String → ℚ) (gc : SymbolDeclarationStruct → Option String)
    (res1 res2 : List SymbolsSearchResultStruct)
    (h1 : st.search_declarations q n (some F) sim gc = some res1)
    (h2 : st.search_usages q n (some F) sim gc = some res2) :
    (∀ r ∈ res1, ∃ k f ks, f ≠ F ∧ (f, ks) ∈ st.declarations_search_index ∧ k ∈ ks ∧
      mapGet st.declarations k = some r.symbol_declaration) ∧
    (∀ r ∈ res2, ∃ k f ks bucket u, f ≠ F ∧ (f, ks) ∈ st.usages_search_index ∧ k ∈ ks ∧
      mapGet st.usages k = some bucket ∧ u ∈ bucket) := by
  constructor
  · intro r hr
    obtain ⟨keys, hkeys, hres⟩ := search_declarations_some st q n (some F) sim gc res1 h1
    rw [hres] at hr
    obtain ⟨p, hp, hrd, _⟩ := mem_hydrate gc _ r hr
    have hc := mem_declScored sim q _ p (mem_rankAndTake n _ p hp)
    obtain ⟨k, hk, hkd⟩ := mem_declCandidates st keys p.1 hc
    obtain ⟨f, ks, hfk, hne, hkks⟩ := mem_make_a_query _ q (some F) keys k hkeys hk
    refine ⟨k, f, ks, hne F rfl, hfk, hkks, ?_⟩
    rw [hrd]
    exact hkd
  · intro r hr
    obtain ⟨keys, hkeys, hres⟩ := search_usages_some st q n (some F) sim gc res2 h2
    rw [hres] at hr
    obtain ⟨p, hp, _, _⟩ := mem_hydrate gc _ r hr
    obtain ⟨u, hu, _⟩ := mem_usageScored st sim q _ p (mem_rankAndTake n _ p hp)
    obtain ⟨⟨k, hk, bucket, hbk, hub⟩, _⟩ := mem_usageCandidates st keys u hu
    obtain ⟨f, ks, hfk, hne, hkks⟩ := mem_make_a_query _ q (some F) keys k hkeys hk
    exact ⟨k, f, ks, bucket, u, hne F rfl, hfk, hkks, hbk, hub⟩

/-- Witness for C9 at a concrete input: with `a.cpp` (the only file of
`stLinked`) as the exception and the match-everything empty query, both
searches return no result at all. -/
theorem spec_c9_witness :
    stLinked.search_declarations "" 10 (some "a.cpp") (fun _ _ => 1) (fun _ => some "body")
      = some [] ∧
    stLinked.search_usages "" 10 (some "a.cpp") (fun _ _ => 1) (fun _ => some "body")
      = some [] ∧
    ((∀ r ∈ ([] : List SymbolsSearchResultStruct), ∃ k f ks, f ≠ "a.cpp" ∧
        (f, ks) ∈ stLinked.declarations_search_index ∧ k ∈ ks ∧
        mapGet stLinked.declarations k = some r.symbol_declaration) ∧
      (∀ r ∈ ([] : List SymbolsSearchResultStruct), ∃ k f ks bucket u, f ≠ "a.cpp" ∧
        (f, ks) ∈ stLinked.usages_search_index ∧ k ∈ ks ∧
        mapGet stLinked.usages k = some bucket ∧ u ∈ bucket)) :=
  ⟨by decide, by decide,
    spec_c9_exception_masking stLinked "" 10 "a.cpp" (fun _ _ => 1) (fun _ => some "body")
      [] [] (by decide) (by decide)⟩

/-- C10.  A query string that is not a valid regular expression, such
as `(`, makes the query pipeline's unchecked pattern compilation fail:
both public search functions panic (modelled by `none`) instead of
returning an error value, on the empty index and on a populated one
alike. -/
theorem spec_c10_invalid_query_panics :
    AstIndex.init.search_declarations "(" 10 none (fun _ _ => 1) (fun _ => some "") = none ∧
    AstIndex.init.search_usages "(" 10 none (fun _ _ => 1) (fun _ => some "") = none ∧
    stLinked.search_declarations "(" 10 none (fun _ _ => 1) (fun _ => some "") = none ∧
    stLinked.search_usages "(" 10 none (fun _ _ => 1) (fun _ => some "") = none := by
  decide
